import Mathlib

/-!
Shallow embedding of `src/rseq2midi.cpp` (RSEQ → MIDI converter).

The embedding mirrors the source: `Track` is `Track_t`, its methods
(`PushDelta`, `ProcDelta`, `Event`, `mNoteOn`, …, `mEnd`, `Wait`) are
translated one-for-one, and `rseqRun` is the interpreter loop of `rseqDo`.
Machine integers (`u32`, `u8`) are `Nat` with explicit `% 2^32` / `% 256`
where the C arithmetic can wrap.  The byte source (`FILE*`) is a `List Nat`
of bytes addressed by absolute offset; reads past the end yield 0 (the
claims below only exercise in-bounds reads).  The two undefined-behaviour
points of the source — `gTrack[trk]` indexing with an unchecked byte and
`60000000 / tmp` with no zero guard — are modelled as `Option`: the step
function returns `none` exactly on those branches.
-/

/-- 2^32, the modulus of the `u32` arithmetic of the source. -/
def W32 : Nat := 4294967296

/-- One pending note, `Note_t`: key and absolute end tick (both `u32`). -/
structure Note where
  key : Nat
  pos : Nat
deriving DecidableEq

/-- Track state, `Track_t`.  `gData` is the accumulated MIDI byte buffer. -/
structure Track where
  gIndx : Nat
  gStat : Nat
  gTrns : Int
  gRPNR : Nat
  gWait : Nat
  gDPos : Nat
  gGPos : Nat
  gRPos : Nat
  gNote : List Note
  gData : List Nat
deriving DecidableEq

/-- Byte fetch at an absolute offset: `fgetc` after `fseek`.  Out-of-range
reads return 0 (the claims only exercise in-bounds reads); in-range entries
are reduced mod 256 as a `FILE` only yields bytes. -/
def byteAt (rom : List Nat) (p : Nat) : Nat := ((rom.get? p).getD 0) % 256

/-- Big-endian multi-byte read, `ReadBE`: accumulate `count` bytes, most
significant first (`v |= fgetc(f) << i` with disjoint shifts = `v*256 + c`). -/
def readBEgo (rom : List Nat) : Nat → Nat → Nat → Nat
  | _, 0, v => v
  | pos, b + 1, v => readBEgo rom (pos + 1) b (v * 256 + byteAt rom pos)

/-- Source `ReadBE(f, 8*count)` as a pure function of position (result is `u32`). -/
def readBE (rom : List Nat) (pos count : Nat) : Nat := readBEgo rom pos count 0 % W32

/-- Byte-count loop of `Track_t::PushDelta` (`while(n > 127) { c++; n >>= 7; }`).
The fuel 5 is exact for `u32` inputs: a 32-bit value needs at most 5 groups
of 7 bits, so the loop body runs at most 4 times. -/
def vlqCountGo : Nat → Nat → Nat
  | 0, _ => 0
  | fuel + 1, n => if n > 127 then 1 + vlqCountGo fuel (n / 128) else 0

/-- Number of continuation bytes `c` computed by `PushDelta`. -/
def vlqCount (n : Nat) : Nat := vlqCountGo 5 n

/-- The bytes pushed by `Track_t::PushDelta(t)`: for `i = c` down to `0`,
`v = (t >> 7*i) & 127`, with `0x80` or-ed in on every byte but the last. -/
def vlqBytes (t : Nat) : List Nat :=
  (List.range (vlqCount t + 1)).reverse.map
    (fun i => (t / 128 ^ i) % 128 + if i = 0 then 0 else 128)

/-- Loop body of `ReadVarLen`: `t = (t << 7) | (c & 127)` in `u32`, continue
while `c & 0x80`.  Reading past the end of `rom` yields byte 0, which has a
clear continuation bit, so `rom.length + 1` steps of fuel always suffice;
the fuel-out branch is unreachable for the fuel chosen by `readVarLenPos`. -/
def readVarLenAt (rom : List Nat) : Nat → Nat → Nat → Nat × Nat
  | 0, pos, t => (t, pos)
  | fuel + 1, pos, t =>
    let c := byteAt rom pos
    let t2 := t * 128 % W32 + c % 128
    if 128 ≤ c then readVarLenAt rom fuel (pos + 1) t2 else (t2, pos + 1)

/-- Source `ReadVarLen(f)` as a pure function: returns the decoded value and the
position just past the consumed bytes. -/
def readVarLenPos (rom : List Nat) (pos : Nat) : Nat × Nat :=
  readVarLenAt rom (rom.length + 1) pos 0

namespace Track

/-- Method `Track_t::Start(adr)`: activate the track at address `adr`.  Note that,
exactly as in the source, `gWait` and `gRPNR` are left untouched. -/
def Start (tr : Track) (adr : Nat) : Track :=
  { tr with gStat := 1, gTrns := 0, gDPos := adr % W32, gGPos := 0, gRPos := 0,
            gData := [], gNote := [] }

/-- Method `Track_t::PushDelta(t)`: append the variable-length encoding of the
`u32` argument to the MIDI buffer. -/
def PushDelta (tr : Track) (t : Nat) : Track :=
  { tr with gData := tr.gData ++ vlqBytes (t % W32) }

/-- Method `Track_t::ProcDelta()`: flush `gWait` as a delta and reset it. -/
def ProcDelta (tr : Track) : Track :=
  { tr.PushDelta tr.gWait with gWait := 0 }

/-- Method `Track_t::Event(ev, argc, argv)`: flush the pending delta, then push
`ev | gIndx` and the argument bytes.  The `% 256` is the `u8` truncation of
`vector<u8>::push_back` (in the source the arguments are truncated when the
`u8 edata[]` arrays are built — same composite function). -/
def Event (tr : Track) (ev : Nat) (argv : List Nat) : Track :=
  let tr2 := tr.ProcDelta
  { tr2 with gData := tr2.gData ++ [(ev ||| tr2.gIndx) % 256] ++ argv.map (· % 256) }

/-- Method `Track_t::mNoteOn(key, vel, time)`: emit a note-on event and push
`{key, gGPos + time}` (in `u32`) onto the sounding-note vector. -/
def mNoteOn (tr : Track) (key vel time : Nat) : Track :=
  let tr2 := tr.Event 0x90 [key, vel]
  { tr2 with gNote := tr2.gNote ++ [⟨key % W32, (tr2.gGPos + time) % W32⟩] }

/-- Method `Track_t::mGenCtrl(ctrlType, ctrlData)`: generic controller event. -/
def mGenCtrl (tr : Track) (ctrlType ctrlData : Nat) : Track :=
  tr.Event 0xB0 [ctrlType, ctrlData]

/-- Method `Track_t::mVol(vol)`. -/
def mVol (tr : Track) (vol : Nat) : Track := tr.Event 0xB0 [0x07, vol]

/-- Method `Track_t::mPan(pan)`. -/
def mPan (tr : Track) (pan : Nat) : Track := tr.Event 0xB0 [0x0A, pan]

/-- Method `Track_t::mExp(exp)`. -/
def mExp (tr : Track) (e : Nat) : Track := tr.Event 0xB0 [0x0B, e]

/-- Method `Track_t::mPrg(prg)`. -/
def mPrg (tr : Track) (prg : Nat) : Track := tr.Event 0xC0 [prg]

/-- Method `Track_t::mBnd(bnd)`: `n = 0x2000 + bnd*16384/256` in `u32`, then a
pitch-bend event with bytes `n & 127` and `n >> 7`. -/
def mBnd (tr : Track) (bnd : Nat) : Track :=
  let n := (0x2000 + bnd % W32 * 16384 % W32 / 256) % W32
  tr.Event 0xE0 [n % 128, n / 128]

/-- Method `Track_t::mBndRng(rng)`: if `gRPNR` is clear, set it and emit the RPN
select pair (0x65 then 0x64); then emit the data entry.  Note the source
never clears `gRPNR` here. -/
def mBndRng (tr : Track) (rng : Nat) : Track :=
  let tr2 :=
    if tr.gRPNR = 0 then
      (({ tr with gRPNR := 1 }).Event 0xB0 [0x65, 0]).Event 0xB0 [0x64, 0]
    else tr
  tr2.Event 0xB0 [0x06, rng]

/-- Method `Track_t::mRPN(msb, lsb, data)`: RPN triple, then clear `gRPNR`. -/
def mRPN (tr : Track) (msb lsb data : Nat) : Track :=
  { ((tr.Event 0xB0 [0x65, lsb]).Event 0xB0 [0x64, msb]).Event 0xB0 [0x06, data] with
    gRPNR := 0 }

/-- Method `Track_t::mNRPN(msb, lsb, data)`: NRPN triple, then clear `gRPNR`. -/
def mNRPN (tr : Track) (msb lsb data : Nat) : Track :=
  { ((tr.Event 0xB0 [0x63, lsb]).Event 0xB0 [0x62, msb]).Event 0xB0 [0x06, data] with
    gRPNR := 0 }

/-- Method `Track_t::mTmp(tmp)`: `n = 60000000 / tmp` with no zero guard in the
source — the guarded embedding returns `none` when the argument is zero. -/
def mTmp (tr : Track) (tmp : Nat) : Option Track :=
  if tmp % W32 = 0 then none
  else
    let n := 60000000 / (tmp % W32)
    some (tr.Event 0xFF [0x51, 3, n / 65536, n / 256, n])

/-- Method `Track_t::mMetaEvent(type, len, data)`: `Event(0xFF, 1, &type)`, then the
length as a delta-style varint, then the payload bytes. -/
def mMetaEvent (tr : Track) (ty : Nat) (data : List Nat) : Track :=
  let tr2 := (tr.Event 0xFF [ty]).PushDelta data.length
  { tr2 with gData := tr2.gData ++ data.map (· % 256) }

/-- Flush loop of `Track_t::mEnd`: for each note in vector order, push the
pending delta (`PushDelta(gWait); gWait = 0`) and a `0x90` note-off with
velocity 0.  The vector is not sorted here. -/
def flushGo (tr : Track) : List Note → Track
  | [] => tr
  | n :: rest =>
    let tr2 := { tr with
      gWait := 0,
      gData := tr.gData ++ vlqBytes (tr.gWait % W32)
        ++ [(0x90 ||| tr.gIndx) % 256, n.key % 256, 0] }
    flushGo tr2 rest

/-- Method `Track_t::mEnd()`: flush all running notes, clear the vector, emit the
end-of-track meta event, and deactivate the track. -/
def mEnd (tr : Track) : Track :=
  let tr2 := { tr.flushGo tr.gNote with gNote := ([] : List Note) }
  { tr2.Event 0xFF [0x2F, 0] with gStat := 0 }

end Track

/-- Unsigned 32-bit (`u32`) subtraction `x - y` (wraparound as in two-complement hardware). -/
def u32sub (x y : Nat) : Nat := (x % W32 + (W32 - y % W32)) % W32

/-- Source `NoteSortCmp(a, b)` returns `a->pos - b->pos` computed in `u32` and
converted to a signed `int`.  `cmpIsLe a b` decides "the comparator result
is ≤ 0": the `u32` difference is zero or has its sign bit set. -/
def cmpIsLe (a b : Note) : Bool :=
  let v := u32sub a.pos b.pos
  v = 0 || 2147483648 ≤ v

/-- Insertion step of the sort performed by `qsort(&gNote[0], …, NoteSortCmp)`,
modelled as a stable sort under the comparator (the glibc `qsort` is a stable
merge sort for small arrays of this kind; tie order is otherwise unspecified
by C, and the spec asserts insertion-order ties). -/
def noteInsert (n : Note) : List Note → List Note
  | [] => [n]
  | m :: rest => if cmpIsLe n m then n :: m :: rest else m :: noteInsert n rest

/-- The sorted note vector at the top of `Track_t::Wait`. -/
def noteSort : List Note → List Note
  | [] => []
  | n :: rest => noteInsert n (noteSort rest)

/-- Scan loop of `Track_t::Wait`: walk the sorted vector; a note with
`pos > pPos` is kept; otherwise `dif = note.pos - gGPos` (u32) is pushed as
a delta, a `0x90` velocity-0 note-off is pushed, the note is erased, and
`gGPos += dif`, `timeLeft -= dif` (both u32).  Returns the final
`(gGPos, timeLeft, gData, kept notes)`. -/
def waitScan (idx pPos : Nat) : List Note → Nat → Nat → List Nat → Nat × Nat × List Nat × List Note
  | [], g, tl, data => (g, tl, data, [])
  | n :: rest, g, tl, data =>
    if pPos < n.pos then
      match waitScan idx pPos rest g tl data with
      | (g2, tl2, data2, kept) => (g2, tl2, data2, n :: kept)
    else
      let dif := u32sub n.pos g
      waitScan idx pPos rest ((g + dif) % W32) (u32sub tl dif)
        (data ++ vlqBytes dif ++ [(0x90 ||| idx) % 256, n.key % 256, 0])

/-- Method `Track_t::Wait(timeLeft)`: sort the notes, scan them against
`pPos = gGPos + timeLeft`, then advance `gGPos` by the remaining time and
add it to `gWait` (all in u32). -/
def Track.Wait (tr : Track) (timeLeft : Nat) : Track :=
  let tl := timeLeft % W32
  let r := waitScan tr.gIndx ((tr.gGPos + tl) % W32) (noteSort tr.gNote) tr.gGPos tl tr.gData
  { tr with gGPos := (r.1 + r.2.1) % W32, gWait := (tr.gWait + r.2.1) % W32,
            gNote := r.2.2.2, gData := r.2.2.1 }

/-- Ascending end-tick order on notes, the order the spec asserts. -/
def posLe (a b : Note) : Prop := a.pos ≤ b.pos

instance : DecidableRel posLe := fun a b => Nat.decLe a.pos b.pos

instance : IsTotal Note posLe := ⟨fun a b => Nat.le_total a.pos b.pos⟩

instance : IsTrans Note posLe := ⟨fun _ _ _ h1 h2 => Nat.le_trans h1 h2⟩

/-- Modelled from the spec (§4.3 `advance`, steps 2–3): repeatedly remove the
earliest note whose `end_tick ≤ target`, flushing `delta = end_tick − local_time`
and its note-off, advancing `local_time` to the end tick of the note and decreasing
the remaining wait; stop at the first note past the target. -/
def waitRefScan (idx target : Nat) : List Note → Nat → Nat → List Nat → Nat × Nat × List Nat × List Note
  | [], g, tl, data => (g, tl, data, [])
  | n :: rest, g, tl, data =>
    if n.pos ≤ target then
      waitRefScan idx target rest n.pos (tl - (n.pos - g))
        (data ++ vlqBytes (n.pos - g) ++ [(0x90 ||| idx) % 256, n.key % 256, 0])
    else (g, tl, data, n :: rest)

/-- Modelled from the spec (§4.3 Note Scheduler `advance(ticks_to_wait)`):
sort sounding notes by `end_tick` ascending with ties in insertion order
(a stable insertion sort), emit a note-off for every note ending by
`target = local_time + ticks_to_wait`, then advance `local_time` by the
remaining ticks and add that remainder to `wait_accumulated`. -/
def waitRef (tr : Track) (t : Nat) : Track :=
  let r := waitRefScan tr.gIndx (tr.gGPos + t) (List.insertionSort posLe tr.gNote)
    tr.gGPos t tr.gData
  { tr with gGPos := r.1 + r.2.1, gWait := tr.gWait + r.2.1,
            gNote := r.2.2.2, gData := r.2.2.1 }

/-- The per-file state of `gData.gTrack` (the 16 track slots). -/
structure GState where
  tracks : List Track
deriving DecidableEq

/-- A track slot after `gData.Reset()` (static zero initialisation plus
`Track_t::Reset(i)`). -/
def initTrack (i : Nat) : Track := ⟨i % 256, 0, 0, 0, 0, 0, 0, 0, [], []⟩

/-- The 16 slots after `gData.Reset()`. -/
def initState : GState := ⟨(List.range 16).map initTrack⟩

/-- Read track slot `i` (callers keep `i < 16`, as the loop in the source does). -/
def getTrack (g : GState) (i : Nat) : Track := (g.tracks.get? i).getD (initTrack 0)

/-- Write track slot `i`. -/
def setTrack (g : GState) (i : Nat) (t : Track) : GState := ⟨g.tracks.set i t⟩

/-- The LABL table: an offset → annotation-bytes association list. -/
def lookupLabel : List (Nat × List Nat) → Nat → Option (List Nat)
  | [], _ => none
  | (k, s) :: rest, p => if k = p then some s else lookupLabel rest p

/-- ASCII bytes of a string (all annotation text in the source is ASCII). -/
def strBytes (s : String) : List Nat := s.data.map Char.toNat

/-- The `snprintf(msgbuf, 0x20, "Jump (%s, %s)", …)` annotation text of the
0x89 handler; every variant is shorter than the 0x20 buffer. -/
def jumpText (dir ij : Bool) : String :=
  "Jump (" ++ (if dir then "forwards" else "backwards") ++ ", "
    ++ (if ij then "ignored" else if dir then "taken" else "Track End") ++ ")"

/-- The `switch(cmd)` dispatch of `rseqDo` for one already-read opcode byte.
`pos` is the read position just after the opcode byte; `i` is the running
track index.  Returns `none` exactly on the two undefined-behaviour
branches of the source: a split whose one-byte target is `≥ 16` (unchecked
`gTrack[trk]` indexing) and a tempo argument of zero (unguarded division).
Cases with identical bodies in the source (`0xC6/0xC7/0xC8`, `0xD8–0xDB`)
are grouped with a disjunction. -/
def execCmd (ij dc : Bool) (rom : List Nat) (mdOff i : Nat) (g : GState) (cmd pos : Nat) :
    Option (GState × Nat × Bool) :=
  let trk := getTrack g i
  if cmd < 0x80 then
    let vel := byteAt rom pos
    let r := readVarLenPos rom (pos + 1)
    some (setTrack g i (trk.mNoteOn cmd vel r.1), r.2, true)
  else if cmd = 0x80 then
    let r := readVarLenPos rom pos
    some (setTrack g i (trk.Wait r.1), r.2, true)
  else if cmd = 0x81 then
    let c := byteAt rom pos
    let c2 := byteAt rom (pos + 1)
    let p2 := if 128 ≤ c then (if 128 ≤ c2 then pos + 3 else pos + 2) else pos + 1
    some (setTrack g i (trk.mPrg (c % 128)), p2, true)
  else if cmd = 0x88 then
    let t := byteAt rom pos
    let adr := (readBE rom (pos + 1) 3 + mdOff) % W32
    if t < 16 then some (setTrack g t ((getTrack g t).Start adr), pos + 4, true)
    else none
  else if cmd = 0x89 then
    let adr := (readBE rom pos 3 + mdOff) % W32
    let dir := pos + 3 < adr
    let trk2 := trk.mMetaEvent 0x06 (strBytes (jumpText dir ij))
    if ij then some (setTrack g i trk2, pos + 3, true)
    else if dir then some (setTrack g i { trk2 with gDPos := adr }, adr, true)
    else some (setTrack g i trk2.mEnd, pos + 3, false)
  else if cmd = 0x8A then
    let adr := (mdOff + readBE rom pos 3) % W32
    some (setTrack g i { trk with gRPos := (pos + 3) % W32, gDPos := adr }, adr, true)
  else if cmd = 0xB0 then
    let cdata := byteAt rom pos
    some (setTrack g i
      (if dc then (trk.mGenCtrl 0x70 (cmd % 128)).mGenCtrl 0x26 cdata else trk), pos + 1, true)
  else if cmd = 0xC0 then some (setTrack g i (trk.mPan (byteAt rom pos)), pos + 1, true)
  else if cmd = 0xC1 then some (setTrack g i (trk.mVol (byteAt rom pos)), pos + 1, true)
  else if cmd = 0xC2 then some (setTrack g i (trk.mGenCtrl 0x27 (byteAt rom pos)), pos + 1, true)
  else if cmd = 0xC3 then some (setTrack g i (trk.mNRPN 0x00 0x02 (byteAt rom pos)), pos + 1, true)
  else if cmd = 0xC4 then some (setTrack g i (trk.mBnd (byteAt rom pos)), pos + 1, true)
  else if cmd = 0xC5 then some (setTrack g i (trk.mBndRng (byteAt rom pos)), pos + 1, true)
  else if cmd = 0xC6 ∨ cmd = 0xC7 ∨ cmd = 0xC8 then
    let cdata := byteAt rom pos
    some (setTrack g i
      (if dc then (trk.mGenCtrl 0x70 (cmd % 128)).mGenCtrl 0x26 cdata else trk), pos + 1, true)
  else if cmd = 0xC9 then some (setTrack g i (trk.mGenCtrl 84 (byteAt rom pos)), pos + 1, true)
  else if cmd = 0xCA then some (setTrack g i (trk.mGenCtrl 1 (byteAt rom pos)), pos + 1, true)
  else if cmd = 0xCB then
    some (setTrack g i (if dc then trk.mGenCtrl 0x11 (byteAt rom pos) else trk), pos + 1, true)
  else if cmd = 0xCC then
    some (setTrack g i (if dc then trk.mGenCtrl 0x21 (byteAt rom pos) else trk), pos + 1, true)
  else if cmd = 0xCD then
    some (setTrack g i (if dc then trk.mGenCtrl 0x12 (byteAt rom pos) else trk), pos + 1, true)
  else if cmd = 0xCE then some (setTrack g i (trk.mGenCtrl 65 (byteAt rom pos)), pos + 1, true)
  else if cmd = 0xCF then some (setTrack g i (trk.mGenCtrl 5 (byteAt rom pos)), pos + 1, true)
  else if cmd = 0xD0 then
    some (setTrack g i (if dc then trk.mGenCtrl 73 (byteAt rom pos) else trk), pos + 1, true)
  else if cmd = 0xD1 then
    some (setTrack g i (if dc then trk.mNRPN 0x01 0x64 (byteAt rom pos) else trk), pos + 1, true)
  else if cmd = 0xD2 then
    some (setTrack g i (if dc then trk.mGenCtrl 91 (byteAt rom pos) else trk), pos + 1, true)
  else if cmd = 0xD3 then
    some (setTrack g i (if dc then trk.mGenCtrl 72 (byteAt rom pos) else trk), pos + 1, true)
  else if cmd = 0xD4 then some (setTrack g i (trk.mGenCtrl 0x6F 0), pos, true)
  else if cmd = 0xD5 then some (setTrack g i (trk.mExp (byteAt rom pos)), pos + 1, true)
  else if cmd = 0xD6 then
    let cdata := byteAt rom pos
    some (setTrack g i
      (if dc then (trk.mGenCtrl 0x70 (cmd % 128)).mGenCtrl 0x26 cdata else trk), pos + 1, true)
  else if cmd = 0xD8 ∨ cmd = 0xD9 ∨ cmd = 0xDA ∨ cmd = 0xDB then
    let cdata := byteAt rom pos
    some (setTrack g i
      (if dc then (trk.mGenCtrl 0x70 (cmd % 128)).mGenCtrl 0x26 cdata else trk), pos + 1, true)
  else if cmd = 0xE0 then
    let cdata := readBE rom pos 2 % 65536
    some (setTrack g i (if dc then trk.mGenCtrl 0x10 (cdata % 128) else trk), pos + 2, true)
  else if cmd = 0xE1 then
    match trk.mTmp (readBE rom pos 2) with
    | none => none
    | some trk2 => some (setTrack g i trk2, pos + 2, true)
  else if cmd = 0xE3 then
    some (setTrack g i (if dc then trk.mGenCtrl 0x70 (cmd % 128) else trk), pos + 2, true)
  else if cmd = 0xFC then some (setTrack g i (trk.mGenCtrl 0x6F 1), pos, true)
  else if cmd = 0xFD then
    if trk.gRPos ≠ 0 then
      some (setTrack g i { trk with gDPos := trk.gRPos, gRPos := 0 }, trk.gRPos, true)
    else some (g, pos, true)
  else if cmd = 0xFE then
    some (setTrack g i (if dc then trk.mGenCtrl 0x70 (cmd % 128) else trk), pos + 2, true)
  else if cmd = 0xFF then some (setTrack g i trk.mEnd, pos, false)
  else some (g, pos, true)

/-- One iteration of the inner `while(loop)` of `rseqDo`: the label check at
`curpos = ftell - mdOff`, then one opcode is read and dispatched. -/
def stepTrk (ij dc : Bool) (labels : List (Nat × List Nat)) (rom : List Nat)
    (mdOff i : Nat) (g : GState) (pos : Nat) : Option (GState × Nat × Bool) :=
  let g2 := match lookupLabel labels (pos - mdOff) with
    | some s => setTrack g i ((getTrack g i).mMetaEvent 0x06 s)
    | none => g
  execCmd ij dc rom mdOff i g2 (byteAt rom pos) (pos + 1)

/-- Run one track to completion (the inner `while(loop)`), with step fuel.
Fuel exhaustion yields `none`; every theorem below supplies enough fuel. -/
def runTrk (ij dc : Bool) (labels : List (Nat × List Nat)) (rom : List Nat)
    (mdOff i : Nat) : Nat → GState → Nat → Option GState
  | 0, _, _ => none
  | fuel + 1, g, pos =>
    match stepTrk ij dc labels rom mdOff i g pos with
    | none => none
    | some (g2, p2, cont) =>
      if cont then runTrk ij dc labels rom mdOff i fuel g2 p2 else some g2

/-- One pass of the `for(i=0;i<16;i++)` track multiplexer: every active track
is run to completion from its `gDPos`; the flag records whether any track was
active this pass (`gTrkCnt`). -/
def runPassGo (ij dc : Bool) (labels : List (Nat × List Nat)) (rom : List Nat)
    (mdOff fuel : Nat) : List Nat → GState → Bool → Option (GState × Bool)
  | [], g, act => some (g, act)
  | i :: rest, g, act =>
    if (getTrack g i).gStat ≠ 0 then
      match runTrk ij dc labels rom mdOff i fuel g (getTrack g i).gDPos with
      | none => none
      | some g2 => runPassGo ij dc labels rom mdOff fuel rest g2 true
    else runPassGo ij dc labels rom mdOff fuel rest g act

/-- The outer `while(gTrkCnt)` loop: repeat passes while the previous pass
saw an active track. -/
def runAll (ij dc : Bool) (labels : List (Nat × List Nat)) (rom : List Nat)
    (mdOff fuel : Nat) : Nat → GState → Option GState
  | 0, g => some g
  | passes + 1, g =>
    match runPassGo ij dc labels rom mdOff fuel (List.range 16) g false with
    | none => none
    | some (g2, false) => some g2
    | some (g2, true) => runAll ij dc labels rom mdOff fuel passes g2

/-- Interpretation phase of `rseqDo`: start track 0 at `mdOff`
(`gData.gDATAHead.fOff`) and run passes until no track is active. -/
def rseqRun (ij dc : Bool) (labels : List (Nat × List Nat)) (rom : List Nat)
    (mdOff passes fuel : Nat) : Option GState :=
  runAll ij dc labels rom mdOff fuel passes
    (setTrack initState 0 ((getTrack initState 0).Start mdOff))

/-- Counter `trkMax`: the number of tracks with a non-empty event buffer, written to
the MThd header. -/
def trkMax (g : GState) : Nat := (g.tracks.filter (fun t => !t.gData.isEmpty)).length

/-- The non-empty per-track event buffers, in ascending track order. -/
def trackDatas (g : GState) : List (List Nat) :=
  (g.tracks.map Track.gData).filter (fun d => !d.isEmpty)

/-- Big-endian 16-bit serialisation (`Swap16` field written on a
little-endian host). -/
def be16 (v : Nat) : List Nat := [v / 256 % 256, v % 256]

/-- Big-endian 32-bit serialisation (`Swap32` field written on a
little-endian host). -/
def be32 (v : Nat) : List Nat :=
  [v / 16777216 % 256, v / 65536 % 256, v / 256 % 256, v % 256]

/-- The serialised MIDI output of `rseqDo`: the 14-byte MThd header (format 1,
`trkMax` tracks, 96 ticks per quarter), then an MTrk chunk per non-empty
track. -/
def midiBytes (g : GState) : List Nat :=
  [0x4D, 0x54, 0x68, 0x64] ++ be32 6 ++ be16 1 ++ be16 (trkMax g % 65536) ++ be16 96
    ++ (trackDatas g).foldr
        (fun d acc => [0x4D, 0x54, 0x72, 0x6B] ++ be32 (d.length % W32) ++ d ++ acc) []

/-- The opcode bytes handled by some `case` of the `switch` in `rseqDo`
(implicit note-on `< 0x80` included); every other byte reaches the
`default:` branch. -/
def isKnownCmd (c : Nat) : Bool :=
  c < 0x80 ||
    c ∈ [0x80, 0x81, 0x88, 0x89, 0x8A, 0xB0,
         0xC0, 0xC1, 0xC2, 0xC3, 0xC4, 0xC5, 0xC6, 0xC7, 0xC8, 0xC9,
         0xCA, 0xCB, 0xCC, 0xCD, 0xCE, 0xCF,
         0xD0, 0xD1, 0xD2, 0xD3, 0xD4, 0xD5, 0xD6, 0xD8, 0xD9, 0xDA, 0xDB,
         0xE0, 0xE1, 0xE3, 0xFC, 0xFD, 0xFE, 0xFF]

/-- The bytes that the flush loop of `mEnd` appends for a note list: one
`0x90` velocity-0 note-off per note, in list order, the first at the pending
delta and the rest at delta 0. -/
def endBlocks (idx w : Nat) : List Note → List Nat
  | [] => []
  | n :: rest =>
    vlqBytes (w % W32) ++ [(0x90 ||| idx) % 256, n.key % 256, 0] ++ endBlocks idx 0 rest

/-- The Note-Scheduler invariant: every sounding note ends no earlier than
the current local time of the track. -/
def TrackInv (tr : Track) : Prop := ∀ n ∈ tr.gNote, tr.gGPos ≤ n.pos

instance (tr : Track) : Decidable (TrackInv tr) :=
  inferInstanceAs (Decidable (∀ n ∈ tr.gNote, tr.gGPos ≤ n.pos))

/-- C7: encoding each tick value t in {0, 1, 127, 128, 16383, 16384, 2097151}
with the variable-length encoder `PushDelta` and decoding the produced bytes
with `ReadVarLen` yields exactly t, consuming exactly the produced bytes. -/
theorem varlen_roundtrip :
    readVarLenPos (vlqBytes 0) 0 = (0, (vlqBytes 0).length)
    ∧ readVarLenPos (vlqBytes 1) 0 = (1, (vlqBytes 1).length)
    ∧ readVarLenPos (vlqBytes 127) 0 = (127, (vlqBytes 127).length)
    ∧ readVarLenPos (vlqBytes 128) 0 = (128, (vlqBytes 128).length)
    ∧ readVarLenPos (vlqBytes 16383) 0 = (16383, (vlqBytes 16383).length)
    ∧ readVarLenPos (vlqBytes 16384) 0 = (16384, (vlqBytes 16384).length)
    ∧ readVarLenPos (vlqBytes 2097151) 0 = (2097151, (vlqBytes 2097151).length) := by
  decide

/-- C1 (counterexample): on the entry-track bytecode
`[note-on key=60 vel=100 dur=96][0xFF]` the event bytes of the single produced track: they
bytes are delta 0 note-on, delta 0 note-off, delta 0 end-of-track — the
note-off is at delta 0, not delta 96 as the claim states, because no wait
opcode elapses the duration and `mEnd` force-flushes the still-sounding
note at the current delta. -/
theorem minimal_program_noteoff_delta_cx :
    (rseqRun false false [] [60, 100, 96, 0xFF] 0 4 16).map trackDatas
      = some [[0, 0x90, 60, 100, 0, 0x90, 60, 0, 0, 0xFF, 0x2F, 0]]
    ∧ [[0, 0x90, 60, 100, 0, 0x90, 60, 0, 0, 0xFF, 0x2F, 0]]
      ≠ [[0, 0x90, 60, 100, 96, 0x90, 60, 0, 0, 0xFF, 0x2F, 0]] := by
  constructor
  · decide
  · decide

/-- C1 (amended): on the entry-track bytecode
`[note-on key=60 vel=100 dur=96][0xFF]` the output contains exactly one
track, with event sequence delta 0 note-on(60,100); delta 0 note-off(60,0);
delta 0 end-of-track meta; and the container header declares a track count
of exactly one (bytes 10–11 of the serialised output are 0, 1). -/
theorem minimal_program_output :
    (rseqRun false false [] [60, 100, 96, 0xFF] 0 4 16).map
        (fun g => (trackDatas g, trkMax g, midiBytes g))
      = some ([[0, 0x90, 60, 100, 0, 0x90, 60, 0, 0, 0xFF, 0x2F, 0]], 1,
              [0x4D, 0x54, 0x68, 0x64, 0, 0, 0, 6, 0, 1, 0, 1, 0, 96,
               0x4D, 0x54, 0x72, 0x6B, 0, 0, 0, 12,
               0, 0x90, 60, 100, 0, 0x90, 60, 0, 0, 0xFF, 0x2F, 0]) := by
  decide

/-- C2 (counterexample): two consecutive bend-range operations on a fresh
track.  The first emits the full RPN triple, but the second appends only the
data-entry event `[delta 0, 0xB0, 0x06, value]`, not the full triple:
`mBndRng` sets `gRPNR` and never clears it, so the select pair is not
re-emitted. -/
theorem bend_range_rearm_cx :
    ((((initTrack 0).Start 0).mBndRng 2).mBndRng 3).gData
      = (((initTrack 0).Start 0).mBndRng 2).gData ++ [0, 0xB0, 0x06, 3]
    ∧ (((initTrack 0).Start 0).mBndRng 2).gData
      = [0, 0xB0, 0x65, 0, 0, 0xB0, 0x64, 0, 0, 0xB0, 0x06, 2]
    ∧ ([0, 0xB0, 0x06, 3] : List Nat)
      ≠ [0, 0xB0, 0x65, 0, 0, 0xB0, 0x64, 0, 0, 0xB0, 0x06, 3] := by
  refine ⟨by decide, by decide, by decide⟩

/-- C2 (amended): a bend-range operation emits the RPN select pair only when
`gRPNR` is clear (setting it), and always emits the data entry; `gRPNR` is
never cleared by `mBndRng` itself, so later bend-range operations emit only
the data-entry event until an RPN/NRPN emission clears the flag. -/
theorem bend_range_conditional_pair (tr : Track) (rng : Nat) :
    tr.mBndRng rng = { tr with
      gRPNR := if tr.gRPNR = 0 then 1 else tr.gRPNR,
      gWait := 0,
      gData := tr.gData ++
        (if tr.gRPNR = 0 then
          vlqBytes (tr.gWait % W32) ++ [(0xB0 ||| tr.gIndx) % 256, 0x65, 0]
            ++ vlqBytes 0 ++ [(0xB0 ||| tr.gIndx) % 256, 0x64, 0]
            ++ vlqBytes 0 ++ [(0xB0 ||| tr.gIndx) % 256, 0x06, rng % 256]
        else
          vlqBytes (tr.gWait % W32) ++ [(0xB0 ||| tr.gIndx) % 256, 0x06, rng % 256]) } := by
  obtain ⟨idx, stat, trns, rpnr, wait, dpos, gpos, rpos, note, data⟩ := tr
  by_cases h : rpnr = 0 <;>
    simp [Track.mBndRng, Track.Event, Track.ProcDelta, Track.PushDelta, h,
      List.append_assoc]

/-- C3 (counterexample): on the bytecode `[0x82 (unknown), 0xC1 0x40, 0xFF]`
the buffer of the track contains the volume-controller event decoded from the
bytes after the unknown opcode, and is not empty — so the interpreter did
consume further bytes and did not stop at the unknown opcode as claimed. -/
theorem unknown_opcode_continues_cx :
    (rseqRun false false [] [0x82, 0xC1, 0x40, 0xFF] 0 4 16).map trackDatas
      = some [[0, 0xB0, 0x07, 0x40, 0, 0xFF, 0x2F, 0]]
    ∧ some [[0, 0xB0, 0x07, 0x40, 0, 0xFF, 0x2F, 0]] ≠ some ([] : List (List Nat)) := by
  refine ⟨by decide, by decide⟩

/-- C3 (amended): when the dispatcher decodes an opcode byte matched by no
`case`, it only logs: the state is unchanged, the read position does not
advance past the opcode byte itself, no argument bytes are skipped, the
track does not end, and the interpretation loop continues with the next
byte. -/
theorem unknown_opcode_continues (ij dc : Bool) (rom : List Nat) (mdOff i : Nat)
    (g : GState) (pos cmd : Nat) (h1 : cmd < 256) (h2 : isKnownCmd cmd = false) :
    execCmd ij dc rom mdOff i g cmd pos = some (g, pos, true) := by
  interval_cases cmd <;> first
    | rfl
    | exact absurd h2 (by decide)

/-- Witness for the amended C3 theorem at the concrete unknown opcode 0x82. -/
theorem unknown_opcode_continues_witness :
    (0x82 : Nat) < 256 ∧ isKnownCmd 0x82 = false
    ∧ execCmd false false [] 0 0 initState 0x82 0 = some (initState, 0, true) :=
  ⟨by decide, by decide,
   unknown_opcode_continues false false [] 0 0 initState 0 0x82 (by decide) (by decide)⟩

/-- C4 (counterexample): `mEnd` on a track whose sounding notes are, in
vector order, key 1 ending at tick 100 then key 2 ending at tick 50 (the
state produced by the bytecode `[1 vel dur=100][2 vel dur=50]`) flushes the
note-off for key 1 before the one for key 2 — vector order, not the claimed
ascending end-tick order. -/
theorem end_flush_order_cx :
    ({ (initTrack 0).Start 0 with gNote := [⟨1, 100⟩, ⟨2, 50⟩] } : Track).mEnd.gData
      = [0, 0x90, 1, 0, 0, 0x90, 2, 0, 0, 0xFF, 0x2F, 0]
    ∧ ([0, 0x90, 1, 0, 0, 0x90, 2, 0, 0, 0xFF, 0x2F, 0] : List Nat)
      ≠ [0, 0x90, 2, 0, 0, 0x90, 1, 0, 0, 0xFF, 0x2F, 0] := by
  refine ⟨by decide, by decide⟩

/-- C8 (counterexample): two wait operations — reachable as two 0x80 opcodes
with variable-length arguments 0xFFFFFFFF and 1 — wrap the `u32` local time
`gGPos` from 0xFFFFFFFF to 0: the local time of the track decreases. -/
theorem local_time_wrap_cx :
    (((initTrack 0).Start 0).Wait 0xFFFFFFFF).gGPos = 0xFFFFFFFF
    ∧ ((((initTrack 0).Start 0).Wait 0xFFFFFFFF).Wait 1).gGPos = 0
    ∧ ((((initTrack 0).Start 0).Wait 0xFFFFFFFF).Wait 1).gGPos
        < (((initTrack 0).Start 0).Wait 0xFFFFFFFF).gGPos := by
  refine ⟨by decide, by decide, by decide⟩

/-- C6 (counterexample): on a track with sounding notes ending at tick 5 and
at tick 0x90000000, `Wait 0x90000000` differs from the algorithm of the spec
(`waitRef`): `NoteSortCmp` computes the `u32` difference of end ticks cast
to a signed `int`, so once two end ticks differ by 2^31 or more the
comparator orders the larger tick first and the emitted note-offs are not
in ascending end-tick order. -/
theorem wait_comparator_wrap_cx :
    ({ (initTrack 0).Start 0 with gNote := [⟨1, 5⟩, ⟨2, 0x90000000⟩] } : Track).Wait
        0x90000000
      ≠ waitRef ({ (initTrack 0).Start 0 with gNote := [⟨1, 5⟩, ⟨2, 0x90000000⟩] } : Track)
          0x90000000 := by
  decide

/-- C9: the split handler uses its one-byte target argument as an index into
the 16-slot track array with no bounds check, so the out-of-range branch of
the guarded embedding is reachable: a split with target byte 16 makes both
the single dispatch step and the whole run return `none`, while the same
bytecode with target 1 runs to completion. -/
theorem split_unchecked_index :
    execCmd false false [0x88, 16, 0, 0, 0, 0xFF] 0 0
        (setTrack initState 0 ((getTrack initState 0).Start 0)) 0x88 1 = none
    ∧ rseqRun false false [] [0x88, 16, 0, 0, 0, 0xFF] 0 4 16 = none
    ∧ (rseqRun false false [] [0x88, 1, 0, 0, 5, 0xFF] 0 4 16).isSome = true := by
  refine ⟨by decide, by decide, by decide⟩

/-- C10: the tempo handler divides 60000000 by the raw 2-byte argument with
no zero guard, so the division-by-zero branch of the guarded embedding is
reachable: `mTmp 0` and a run over `[0xE1, 0x00, 0x00]` return `none`, while
tempo 120 produces the meta event for 60000000/120 = 500000 (0x07A120)
microseconds per quarter note. -/
theorem tempo_zero_division :
    ((initTrack 0).Start 0).mTmp 0 = none
    ∧ rseqRun false false [] [0xE1, 0, 0] 0 4 16 = none
    ∧ (rseqRun false false [] [0xE1, 0, 120, 0xFF] 0 4 16).map trackDatas
        = some [[0, 0xFF, 0x51, 3, 0x07, 0xA1, 0x20, 0, 0xFF, 0x2F, 0]] := by
  refine ⟨by decide, by decide, by decide⟩

/-- The flush loop of `mEnd` appends exactly `endBlocks` and leaves `gWait`
untouched only when there was no note to flush. -/
theorem flushGo_eq (l : List Note) : ∀ tr : Track,
    Track.flushGo tr l = { tr with
      gWait := if l.isEmpty then tr.gWait else 0,
      gData := tr.gData ++ endBlocks tr.gIndx tr.gWait l } := by
  induction l with
  | nil => intro tr; simp [Track.flushGo, endBlocks]
  | cons n rest ih =>
    intro tr
    obtain ⟨i1, s1, t1, r1, w1, d1, g1, p1, n1, dt1⟩ := tr
    simp [Track.flushGo, endBlocks, ih, List.append_assoc]

/-- C4 (amended): `mEnd` appends exactly one `0x90` velocity-0 note-off per
still-sounding note, in the current order of the note vector (insertion order as
last arranged by the sorting in `Wait` — not re-sorted by end tick, and duplicate
keys are flushed once each), the first at the pending delta and the rest at
delta 0; it then appends exactly one end-of-track meta event, clears the
sounding set, zeroes the pending wait and marks the track inactive, leaving
the previous buffer contents as an unmodified prefix. -/
theorem end_flush_structure (tr : Track) :
    tr.mEnd = { tr with
      gStat := 0,
      gNote := [],
      gWait := 0,
      gData := tr.gData ++ endBlocks tr.gIndx tr.gWait tr.gNote
        ++ vlqBytes ((if tr.gNote.isEmpty then tr.gWait else 0) % W32)
        ++ [(0xFF ||| tr.gIndx) % 256, 0x2F, 0] } := by
  obtain ⟨i1, s1, t1, r1, w1, d1, g1, p1, n1, dt1⟩ := tr
  simp [Track.mEnd, flushGo_eq, Track.Event, Track.ProcDelta, Track.PushDelta,
    List.append_assoc]

/-- C5: semantics of the 0x89 jump opcode.  With `a` the decoded absolute
target and `pos + 3` the read position after the argument: when jumps are
ignored the cursor just moves past the argument and only the annotation is
emitted; otherwise a strictly-forward target is taken (cursor and `gDPos`
move to it) and a backward-or-equal target terminates the track via `mEnd`
and stops the read loop.  The text annotation naming direction and decision
is emitted in all three cases. -/
theorem jump_policy (ij dc : Bool) (rom : List Nat) (mdOff i : Nat)
    (g : GState) (pos : Nat) :
    (ij = true →
      execCmd ij dc rom mdOff i g 0x89 pos
        = some (setTrack g i ((getTrack g i).mMetaEvent 0x06
            (strBytes (jumpText (pos + 3 < (readBE rom pos 3 + mdOff) % W32) true))),
            pos + 3, true))
    ∧ (ij = false → pos + 3 < (readBE rom pos 3 + mdOff) % W32 →
      execCmd ij dc rom mdOff i g 0x89 pos
        = some (setTrack g i
            { (getTrack g i).mMetaEvent 0x06 (strBytes (jumpText true false)) with
              gDPos := (readBE rom pos 3 + mdOff) % W32 },
            (readBE rom pos 3 + mdOff) % W32, true))
    ∧ (ij = false → ¬ pos + 3 < (readBE rom pos 3 + mdOff) % W32 →
      execCmd ij dc rom mdOff i g 0x89 pos
        = some (setTrack g i
            ((getTrack g i).mMetaEvent 0x06 (strBytes (jumpText false false))).mEnd,
            pos + 3, false)) := by
  refine ⟨fun h => ?_, fun h hdir => ?_, fun h hdir => ?_⟩
  · subst h; simp [execCmd]
  · subst h; simp [execCmd, hdir]
  · subst h; simp [execCmd, hdir]

/-- Witness for the jump-policy theorem: a concrete forward jump (target 16
from position 3) is taken. -/
theorem jump_policy_witness :
    execCmd false false [0, 0, 16] 0 0 initState 0x89 0
      = some (setTrack initState 0
          { (getTrack initState 0).mMetaEvent 0x06 (strBytes (jumpText true false)) with
            gDPos := 16 }, 16, true) :=
  (jump_policy false false [0, 0, 16] 0 0 initState 0).2.1 rfl (by decide)

/-- As long as both end ticks are below 2^31 the signed-difference
comparator agrees with ascending end-tick order. -/
theorem cmpIsLe_eq_posLe (a b : Note) (ha : a.pos < 2147483648)
    (hb : b.pos < 2147483648) : cmpIsLe a b = decide (a.pos ≤ b.pos) := by
  by_cases h : a.pos ≤ b.pos <;> simp [cmpIsLe, u32sub, W32, h] <;> omega

/-- Under the 2^31 bound, the comparator-based insertion agrees with
`orderedInsert` for ascending end-tick order. -/
theorem noteInsert_eq_orderedInsert (n : Note) (l : List Note)
    (hn : n.pos < 2147483648) (hl : ∀ m ∈ l, m.pos < 2147483648) :
    noteInsert n l = List.orderedInsert posLe n l := by
  induction l with
  | nil => rfl
  | cons m rest ih =>
    have hm : m.pos < 2147483648 := hl m (by simp)
    simp only [noteInsert, List.orderedInsert, cmpIsLe_eq_posLe n m hn hm]
    by_cases h : n.pos ≤ m.pos
    · simp [h, posLe]
    · simp [h, posLe, ih (fun x hx => hl x (by simp [hx]))]

/-- Under the 2^31 bound, the comparator-based sort agrees with the stable
ascending insertion sort. -/
theorem noteSort_eq_insertionSort (l : List Note)
    (hl : ∀ m ∈ l, m.pos < 2147483648) :
    noteSort l = List.insertionSort posLe l := by
  induction l with
  | nil => rfl
  | cons n rest ih =>
    simp only [noteSort, List.insertionSort]
    rw [ih (fun x hx => hl x (by simp [hx]))]
    exact noteInsert_eq_orderedInsert n _ (hl n (by simp))
      (fun x hx => hl x (by simp [(List.mem_insertionSort posLe).mp hx]))

/-- When every note in the list ends strictly after `pPos`, the scan of
`Wait` keeps everything and changes nothing. -/
theorem waitScan_all_kept (idx pPos : Nat) (l : List Note) (g tl : Nat)
    (data : List Nat) (h : ∀ n ∈ l, pPos < n.pos) :
    waitScan idx pPos l g tl data = (g, tl, data, l) := by
  induction l with
  | nil => rfl
  | cons n rest ih =>
    simp only [waitScan, if_pos (h n (by simp)),
      ih (fun x hx => h x (by simp [hx]))]

/-- On a note list sorted ascending whose end ticks stay below 2^31 and
ahead of the current time, the u32 scan of `Wait` computes exactly the
scan of the spec. -/
theorem waitScan_eq_ref (idx target : Nat) :
    ∀ (l : List Note) (g tl : Nat) (data : List Nat),
    (∀ n ∈ l, g ≤ n.pos ∧ n.pos < 2147483648) →
    List.Pairwise posLe l →
    g + tl = target → target < 2147483648 →
    waitScan idx target l g tl data = waitRefScan idx target l g tl data := by
  intro l
  induction l with
  | nil => intro g tl data _ _ _ _; rfl
  | cons n rest ih =>
    intro g tl data hb hp hsum htb
    obtain ⟨hg, hlt⟩ := hb n (by simp)
    by_cases h : n.pos ≤ target
    · have hkeep : ¬ target < n.pos := not_lt.mpr h
      have hdif : u32sub n.pos g = n.pos - g := by
        simp only [u32sub, W32]; omega
      have hg2 : (g + (n.pos - g)) % W32 = n.pos := by
        simp only [W32]; omega
      have htl2 : u32sub tl (n.pos - g) = tl - (n.pos - g) := by
        simp only [u32sub, W32]; omega
      simp only [waitScan, waitRefScan, if_neg hkeep, if_pos h, hdif, hg2, htl2]
      exact ih n.pos (tl - (n.pos - g)) _
        (fun x hx => ⟨List.rel_of_pairwise_cons hp hx,
          (hb x (by simp [hx])).2⟩)
        hp.of_cons (by omega) htb
    · have hkeep : target < n.pos := not_le.mp h
      have hrest : ∀ x ∈ rest, target < x.pos := fun x hx =>
        lt_of_lt_of_le hkeep (List.rel_of_pairwise_cons hp hx)
      simp only [waitScan, waitRefScan, if_pos hkeep, if_neg h,
        waitScan_all_kept idx target rest g tl data hrest]

/-- The reference scan keeps the running-sum invariant `g + tl = target`, never
moves time backwards, and keeps only notes ending strictly after the target. -/
theorem waitRefScan_props (idx target : Nat) :
    ∀ (l : List Note) (g tl : Nat) (data : List Nat),
    (∀ n ∈ l, g ≤ n.pos) → List.Pairwise posLe l → g + tl = target →
    (waitRefScan idx target l g tl data).1
        + (waitRefScan idx target l g tl data).2.1 = target
    ∧ g ≤ (waitRefScan idx target l g tl data).1
    ∧ ∀ n ∈ (waitRefScan idx target l g tl data).2.2.2, target < n.pos := by
  intro l
  induction l with
  | nil => intro g tl data _ _ hsum; simp [waitRefScan, hsum]
  | cons n rest ih =>
    intro g tl data hb hp hsum
    have hg : g ≤ n.pos := hb n (by simp)
    by_cases h : n.pos ≤ target
    · simp only [waitRefScan, if_pos h]
      obtain ⟨h1, h2, h3⟩ := ih n.pos (tl - (n.pos - g)) _
        (fun x hx => List.rel_of_pairwise_cons hp hx) hp.of_cons (by omega)
      exact ⟨h1, le_trans hg h2, h3⟩
    · have hkeep : target < n.pos := not_le.mp h
      simp only [waitRefScan, if_neg h]
      refine ⟨hsum, le_refl g, ?_⟩
      intro x hx
      rcases List.mem_cons.mp hx with rfl | hx2
      · exact hkeep
      · exact lt_of_lt_of_le hkeep (List.rel_of_pairwise_cons hp hx2)

/-- Under the invariant and the no-overflow bounds, `Track_t::Wait` computes
exactly the Note-Scheduler `advance` of the spec. -/
theorem wait_eq_waitRef (tr : Track) (t : Nat)
    (hnotes : ∀ n ∈ tr.gNote, tr.gGPos ≤ n.pos ∧ n.pos < 2147483648)
    (ht : tr.gGPos + t < 2147483648)
    (hw : tr.gWait + t < 2147483648) :
    tr.Wait t = waitRef tr t := by
  have ht32 : t % W32 = t := Nat.mod_eq_of_lt (by simp only [W32]; omega)
  have hpp : (tr.gGPos + t) % W32 = tr.gGPos + t :=
    Nat.mod_eq_of_lt (by simp only [W32]; omega)
  have hsorted : ∀ x ∈ List.insertionSort posLe tr.gNote,
      tr.gGPos ≤ x.pos ∧ x.pos < 2147483648 :=
    fun x hx => hnotes x ((List.mem_insertionSort posLe).mp hx)
  have hpair : List.Pairwise posLe (List.insertionSort posLe tr.gNote) :=
    List.sorted_insertionSort posLe tr.gNote
  have hprops := waitRefScan_props tr.gIndx (tr.gGPos + t)
    (List.insertionSort posLe tr.gNote) tr.gGPos t tr.gData
    (fun x hx => (hsorted x hx).1) hpair rfl
  simp only [Track.Wait, waitRef, ht32, hpp,
    noteSort_eq_insertionSort tr.gNote (fun m hm => (hnotes m hm).2),
    waitScan_eq_ref tr.gIndx (tr.gGPos + t) (List.insertionSort posLe tr.gNote)
      tr.gGPos t tr.gData hsorted hpair rfl (by omega)]
  have hmod1 : ((waitRefScan tr.gIndx (tr.gGPos + t)
        (List.insertionSort posLe tr.gNote) tr.gGPos t tr.gData).1
      + (waitRefScan tr.gIndx (tr.gGPos + t)
        (List.insertionSort posLe tr.gNote) tr.gGPos t tr.gData).2.1) % W32
      = (waitRefScan tr.gIndx (tr.gGPos + t)
        (List.insertionSort posLe tr.gNote) tr.gGPos t tr.gData).1
      + (waitRefScan tr.gIndx (tr.gGPos + t)
        (List.insertionSort posLe tr.gNote) tr.gGPos t tr.gData).2.1 := by
    rw [hprops.1]
    exact Nat.mod_eq_of_lt (by simp only [W32]; omega)
  have hmod2 : (tr.gWait + (waitRefScan tr.gIndx (tr.gGPos + t)
        (List.insertionSort posLe tr.gNote) tr.gGPos t tr.gData).2.1) % W32
      = tr.gWait + (waitRefScan tr.gIndx (tr.gGPos + t)
        (List.insertionSort posLe tr.gNote) tr.gGPos t tr.gData).2.1 := by
    refine Nat.mod_eq_of_lt ?_
    have h1 := hprops.1
    have h2 := hprops.2.1
    simp only [W32]; omega
  rw [hmod1, hmod2]

/-- C6 (amended): provided the end tick of every sounding note and all tick sums
stay below 2^31 (so no `u32` wrap reaches the comparator or the delta
arithmetic) and no note ends before the current local time, `Wait` computes
exactly the Note-Scheduler advance of the spec: notes sorted by end tick
ascending with ties in insertion order, each note with
`end_tick ≤ local_time + ticks_to_wait` removed with a flushed delta of
`end_tick − local_time` and its note-off, then `local_time` advanced by the
remaining ticks with the remainder added to `wait_accumulated`. -/
theorem wait_matches_spec (tr : Track) (t : Nat)
    (hnotes : ∀ n ∈ tr.gNote, tr.gGPos ≤ n.pos ∧ n.pos < 2147483648)
    (ht : tr.gGPos + t < 2147483648) (hw : tr.gWait + t < 2147483648) :
    tr.Wait t = waitRef tr t :=
  wait_eq_waitRef tr t hnotes ht hw

/-- Witness for the amended C6 theorem on a concrete small-tick track. -/
theorem wait_matches_spec_witness :
    ({ (initTrack 0).Start 0 with gNote := [⟨1, 5⟩, ⟨2, 50⟩] } : Track).Wait 100
      = waitRef ({ (initTrack 0).Start 0 with gNote := [⟨1, 5⟩, ⟨2, 50⟩] } : Track) 100 :=
  wait_matches_spec _ 100 (by decide) (by decide) (by decide)

/-- C8 (amended): provided the tick arithmetic does not wrap `u32` (the
relevant sums stay below 2^31, and below 2^32 for note registration), the
two operations that touch the clock preserve the invariant: note
registration leaves `local_time` unchanged and only adds a note ending at
or after it, and `Wait` never decreases `local_time` and leaves only notes
ending at or after the new `local_time`. -/
theorem time_monotone_invariant (tr : Track) (k v d t : Nat) :
    (TrackInv tr → tr.gGPos + d < W32 →
      (tr.mNoteOn k v d).gGPos = tr.gGPos ∧ TrackInv (tr.mNoteOn k v d))
    ∧ (TrackInv tr → (∀ n ∈ tr.gNote, n.pos < 2147483648) →
        tr.gGPos + t < 2147483648 → tr.gWait + t < 2147483648 →
        tr.gGPos ≤ (tr.Wait t).gGPos ∧ TrackInv (tr.Wait t)) := by
  constructor
  · intro hInv hd
    refine ⟨rfl, ?_⟩
    intro n hn
    simp only [TrackInv, Track.mNoteOn, Track.Event, Track.ProcDelta,
      Track.PushDelta] at hn ⊢
    rcases List.mem_append.mp hn with h1 | h2
    · exact hInv n h1
    · have hEq : n = (⟨k % W32, (tr.gGPos + d) % W32⟩ : Note) := by simpa using h2
      subst hEq
      show tr.gGPos ≤ (tr.gGPos + d) % W32
      rw [Nat.mod_eq_of_lt hd]
      exact Nat.le_add_right _ _
  · intro hInv hb ht hw
    rw [wait_eq_waitRef tr t (fun n hn => ⟨hInv n hn, hb n hn⟩) ht hw]
    have hsorted : ∀ x ∈ List.insertionSort posLe tr.gNote, tr.gGPos ≤ x.pos :=
      fun x hx => hInv x ((List.mem_insertionSort posLe).mp hx)
    have hprops := waitRefScan_props tr.gIndx (tr.gGPos + t)
      (List.insertionSort posLe tr.gNote) tr.gGPos t tr.gData
      hsorted (List.sorted_insertionSort posLe tr.gNote) rfl
    constructor
    · simp only [waitRef]
      rw [hprops.1]
      exact Nat.le_add_right _ _
    · intro n hn
      simp only [waitRef] at hn ⊢
      rw [hprops.1]
      exact le_of_lt (hprops.2.2 n hn)

/-- Witness for the amended C8 theorem on a concrete started track. -/
theorem time_monotone_invariant_witness :
    ((((initTrack 0).Start 0).mNoteOn 60 100 96).gGPos = ((initTrack 0).Start 0).gGPos
      ∧ TrackInv (((initTrack 0).Start 0).mNoteOn 60 100 96))
    ∧ (((initTrack 0).Start 0).gGPos ≤ (((initTrack 0).Start 0).Wait 10).gGPos
      ∧ TrackInv (((initTrack 0).Start 0).Wait 10)) :=
  ⟨(time_monotone_invariant ((initTrack 0).Start 0) 60 100 96 10).1
      (by decide) (by decide),
   (time_monotone_invariant ((initTrack 0).Start 0) 60 100 96 10).2
      (by decide) (by decide) (by decide) (by decide)⟩
